import Mathlib

/-!
Verification of the dll layer library: a shallow embedding of the dynamic
convolutional layer (src/include/dll/neural/dyn_conv_layer.inl) and of the
patches layer, over exact rational scalars.  ETL dynamic matrices are
modelled as a shape together with a total indexing function; two tensors
agree when their shapes agree and their entries agree inside the bounds.
-/

namespace Dll

/-- Left-to-right accumulation of n terms, mirroring the loop order of the
tensor backend reductions. -/
def sumR : Nat → (Nat → ℚ) → ℚ
  | 0, _ => 0
  | n + 1, f => sumR n f + f n

/-- A 1-dimensional dynamic tensor (etl dyn_vector). -/
structure Tensor1 where
  d0 : Nat
  data : Nat → ℚ

/-- A 3-dimensional dynamic tensor (etl dyn_matrix of order 3). -/
structure Tensor3 where
  d0 : Nat
  d1 : Nat
  d2 : Nat
  data : Nat → Nat → Nat → ℚ

/-- A 4-dimensional dynamic tensor (etl dyn_matrix of order 4). -/
structure Tensor4 where
  d0 : Nat
  d1 : Nat
  d2 : Nat
  d3 : Nat
  data : Nat → Nat → Nat → Nat → ℚ

/-- etl::rep(b, m, n): replicate a vector across two trailing spatial
dimensions. -/
def rep (b : Tensor1) (m n : Nat) : Tensor3 :=
  ⟨b.d0, m, n, fun i _ _ => b.data i⟩

/-- etl::rep_l(t, n): replicate a 3d tensor across a new leading batch
dimension. -/
def rep_l (t : Tensor3) (n : Nat) : Tensor4 :=
  ⟨n, t.d0, t.d1, t.d2, fun _ i j l => t.data i j l⟩

/-- Element-wise sum of two 3d tensors; the result takes the shape of the
left operand, as etl expression templates do. -/
def add3 (a b : Tensor3) : Tensor3 :=
  ⟨a.d0, a.d1, a.d2, fun i j l => a.data i j l + b.data i j l⟩

/-- Element-wise sum of two 4d tensors. -/
def add4 (a b : Tensor4) : Tensor4 :=
  ⟨a.d0, a.d1, a.d2, a.d3, fun n i j l => a.data n i j l + b.data n i j l⟩

/-- Element-wise application of a scalar function to a 3d tensor
(f_activate / f_derivative on a 3d expression). -/
def map3 (f : ℚ → ℚ) (t : Tensor3) : Tensor3 :=
  ⟨t.d0, t.d1, t.d2, fun i j l => f (t.data i j l)⟩

/-- Element-wise application of a scalar function to a 4d tensor. -/
def map4 (f : ℚ → ℚ) (t : Tensor4) : Tensor4 :=
  ⟨t.d0, t.d1, t.d2, t.d3, fun n i j l => f (t.data n i j l)⟩

/-- etl operator >> on 4d tensors: the Hadamard (element-wise) product; the
result takes the shape of the left operand. -/
def hadamard4 (a b : Tensor4) : Tensor4 :=
  ⟨a.d0, a.d1, a.d2, a.d3, fun n i j l => a.data n i j l * b.data n i j l⟩

/-- Row-major linearization of a 3d tensor, as etl stores its elements. -/
def flatten3 (t : Tensor3) : Nat → ℚ :=
  fun i => t.data (i / (t.d1 * t.d2)) (i % (t.d1 * t.d2) / t.d2) (i % t.d2)

/-- Row-major linearization of a 4d tensor. -/
def flatten4 (t : Tensor4) : Nat → ℚ :=
  fun i =>
    t.data (i / (t.d1 * t.d2 * t.d3)) (i % (t.d1 * t.d2 * t.d3) / (t.d2 * t.d3))
      (i % (t.d2 * t.d3) / t.d3) (i % t.d3)

/-- etl::reshape(v, a, b, c, d) of a 3d tensor: a 4d view over the same
row-major element sequence. -/
def reshape3to4 (t : Tensor3) (a b c d : Nat) : Tensor4 :=
  ⟨a, b, c, d, fun n i j l => flatten3 t (((n * b + i) * c + j) * d + l)⟩

/-- Assigning a 4d expression through etl::reshape(output, 1, k, h, w)
fills the 3d output with the same row-major element sequence. -/
def reshape4to3 (t : Tensor4) (a b c : Nat) : Tensor3 :=
  ⟨a, b, c, fun i j l => flatten4 t ((i * b + j) * c + l)⟩

/-- etl::conv_4d_valid_flipped: valid-mode 4d convolution with the kernels
already flipped, i.e. a batched cross-correlation.  Input (N, C, H, W),
kernels (K, C, kH, kW), output (N, K, H - kH + 1, W - kW + 1). -/
def conv4dValidFlipped (v k : Tensor4) : Tensor4 :=
  ⟨v.d0, k.d0, v.d2 - k.d2 + 1, v.d3 - k.d3 + 1, fun n f y x =>
    sumR k.d1 (fun c =>
      sumR k.d2 (fun i =>
        sumR k.d3 (fun j => v.data n c (y + i) (x + j) * k.data f c i j)))⟩

/-- etl::conv_4d_full_flipped: full-mode 4d convolution with the kernels
already flipped.  Errors (N, K, oh, ow), kernels (K, C, kh, kw), output
(N, C, oh + kh - 1, ow + kw - 1). -/
def conv4dFullFlipped (e k : Tensor4) : Tensor4 :=
  ⟨e.d0, k.d1, e.d2 + k.d2 - 1, e.d3 + k.d3 - 1, fun n c y x =>
    sumR e.d1 (fun f =>
      sumR k.d2 (fun i =>
        sumR k.d3 (fun j =>
          if i ≤ y ∧ y - i < e.d2 ∧ j ≤ x ∧ x - j < e.d3 then
            e.data n f (y - i) (x - j) * k.data f c i j
          else 0)))⟩

/-- etl::conv_4d_valid_filter_flipped: the filter-gradient convolution.
Input (N, C, H, W), errors (N, K, oh, ow), output
(K, C, H - oh + 1, W - ow + 1). -/
def conv4dValidFilterFlipped (v e : Tensor4) : Tensor4 :=
  ⟨e.d1, v.d1, v.d2 - e.d2 + 1, v.d3 - e.d3 + 1, fun f c i j =>
    sumR v.d0 (fun n =>
      sumR e.d2 (fun y =>
        sumR e.d3 (fun x => v.data n c (i + y) (j + x) * e.data n f y x)))⟩

/-- etl::sum_l: sum a 4d tensor along its leading (batch) dimension. -/
def sum_l (t : Tensor4) : Tensor3 :=
  ⟨t.d1, t.d2, t.d3, fun i j l => sumR t.d0 (fun n => t.data n i j l)⟩

/-- etl::mean_r on a 3d tensor: the mean over both trailing dimensions,
one value per leading index. -/
def mean_r (t : Tensor3) : Tensor1 :=
  ⟨t.d0, fun i =>
    sumR t.d1 (fun j => sumR t.d2 (fun l => t.data i j l)) / ((t.d1 * t.d2 : Nat) : ℚ)⟩

/-- The dynamic convolutional layer: weights, biases, backup storage and
the eight dimension fields of dyn_conv_layer. -/
structure Layer where
  w : Tensor4
  b : Tensor1
  bak_w : Option Tensor4
  bak_b : Option Tensor1
  nv1 : Nat
  nv2 : Nat
  nh1 : Nat
  nh2 : Nat
  nc : Nat
  k : Nat
  nw1 : Nat
  nw2 : Nat

/-- dyn_conv_layer::input_size. -/
def input_size (l : Layer) : Nat := l.nc * l.nv1 * l.nv2

/-- dyn_conv_layer::output_size. -/
def output_size (l : Layer) : Nat := l.k * l.nh1 * l.nh2

/-- dyn_conv_layer::parameters. -/
def parameters (l : Layer) : Nat := l.k * l.nw1 * l.nw2

/-- dyn_conv_layer::init_layer.  The weight and bias initializers are
abstract plugins; they receive input_size() and output_size() as fan
hints, computed from the freshly assigned fields, and produce the entry at
each index. -/
def init_layer (wInit : Nat → Nat → Nat → Nat → Nat → Nat → ℚ)
    (bInit : Nat → Nat → Nat → ℚ) (l : Layer)
    (nc nv1 nv2 k nh1 nh2 : Nat) : Layer :=
  let nw1 := nv1 - nh1 + 1
  let nw2 := nv2 - nh2 + 1
  let isz := nc * nv1 * nv2
  let osz := k * nh1 * nh2
  { l with
    nv1 := nv1, nv2 := nv2, nh1 := nh1, nh2 := nh2, nc := nc, k := k,
    nw1 := nw1, nw2 := nw2,
    w := ⟨k, nc, nw1, nw2, fun f c i j => wInit isz osz f c i j⟩,
    b := ⟨k, fun f => bInit isz osz f⟩ }

/-- dyn_conv_layer::to_short_string, with the activation identifier
rendered through an abstract name. -/
def to_short_string (actName : String) (l : Layer) : String :=
  "Conv(dyn): " ++ toString l.nc ++ "x" ++ toString l.nv1 ++ "x" ++ toString l.nv2 ++
    " -> (" ++ toString l.k ++ "x" ++ toString l.nw1 ++ "x" ++ toString l.nw2 ++
    ") -> " ++ actName ++ " -> " ++ toString l.k ++ "x" ++ toString l.nh1 ++ "x" ++
    toString l.nh2

/-- dyn_conv_layer::activate_hidden (single sample): convolve the input
reshaped to batch size 1 against the weights through a reshape view of the
output, then add the replicated bias and apply the activation f. -/
def activate_hidden (f : ℚ → ℚ) (l : Layer) (v : Tensor3) : Tensor3 :=
  let b_rep := rep l.b l.nh1 l.nh2
  let conv := conv4dValidFlipped (reshape3to4 v 1 l.nc l.nv1 l.nv2) l.w
  let out := reshape4to3 conv l.k l.nh1 l.nh2
  map3 f (add3 b_rep out)

/-- dyn_conv_layer::batch_activate_hidden: convolve the whole batch, then
add the bias replicated across the spatial extent and the batch dimension
and apply the activation f. -/
def batch_activate_hidden (f : ℚ → ℚ) (l : Layer) (v : Tensor4) : Tensor4 :=
  let out := conv4dValidFlipped v l.w
  let b_rep := rep_l (rep l.b l.nh1 l.nh2) out.d0
  map4 f (add4 b_rep out)

/-- The SGD training context referenced (not owned) by the layer: batched
input snapshot, output, error signal, and the accumulated gradients. -/
structure Context where
  input : Tensor4
  output : Tensor4
  errors : Tensor4
  w_grad : Tensor4
  b_grad : Tensor1

/-- dyn_conv_layer::adapt_errors: errors := f_derivative(output) >> errors,
with fd the derivative of the configured activation. -/
def adapt_errors (fd : ℚ → ℚ) (ctx : Context) : Context :=
  { ctx with errors := hadamard4 (map4 fd ctx.output) ctx.errors }

/-- dyn_conv_layer::backward_batch: output = conv_4d_full_flipped(errors, w). -/
def backward_batch (l : Layer) (ctx : Context) : Tensor4 :=
  conv4dFullFlipped ctx.errors l.w

/-- dyn_conv_layer::compute_gradients: the filter-gradient convolution for
w_grad and mean_r(sum_l(errors)) for b_grad. -/
def compute_gradients (ctx : Context) : Context :=
  { ctx with
    w_grad := conv4dValidFilterFlipped ctx.input ctx.errors,
    b_grad := mean_r (sum_l ctx.errors) }

/-! The five usage methods of dyn_conv_layer are const member functions:
each is modelled as an explicit state-passing call returning the layer
state it leaves behind together with its result, transcribing that the
bodies assign only to the output argument or to context fields. -/

/-- Call of activate_hidden on a layer, with the layer state it leaves. -/
def activate_hidden_call (f : ℚ → ℚ) (l : Layer) (v : Tensor3) : Layer × Tensor3 :=
  (l, activate_hidden f l v)

/-- Call of batch_activate_hidden on a layer, with the layer state it
leaves. -/
def batch_activate_hidden_call (f : ℚ → ℚ) (l : Layer) (v : Tensor4) :
    Layer × Tensor4 :=
  (l, batch_activate_hidden f l v)

/-- Call of adapt_errors on a layer, with the layer state it leaves. -/
def adapt_errors_call (fd : ℚ → ℚ) (l : Layer) (ctx : Context) :
    Layer × Context :=
  (l, adapt_errors fd ctx)

/-- Call of backward_batch on a layer, with the layer state it leaves. -/
def backward_batch_call (l : Layer) (ctx : Context) : Layer × Tensor4 :=
  (l, backward_batch l ctx)

/-- Call of compute_gradients on a layer, with the layer state it leaves. -/
def compute_gradients_call (l : Layer) (ctx : Context) : Layer × Context :=
  (l, compute_gradients ctx)

/-! The patches layer (patches_layer): cuts a single-channel image into
fixed-size patches at fixed strides. -/

/-- The scan loop for (off = 0; off + win <= bound; off += stride),
collecting the visited offsets.  The fuel argument bounds the iteration
count; bound + 1 iterations always suffice for a positive stride. -/
def scanOffsetsAux : Nat → Nat → Nat → Nat → Nat → List Nat
  | 0, _, _, _, _ => []
  | fuel + 1, bound, win, stride, off =>
    if off + win ≤ bound then
      off :: scanOffsetsAux fuel bound win stride (off + stride)
    else []

/-- All offsets visited by the window-scan loop starting at 0. -/
def scanOffsets (bound win stride : Nat) : List Nat :=
  scanOffsetsAux (bound + 1) bound win stride 0

/-- The exact height x width sub-block of a single-channel image at window
position (y, x), as the inner copy loops of patches_layer build it. -/
def extractPatch (input : Tensor3) (height width y x : Nat) : Tensor3 :=
  ⟨1, height, width, fun _ yy xx => input.data 0 (y + yy) (x + xx)⟩

/-- patches_layer::activate_hidden: asserts the input is single-channel,
then emits one patch per window position, the outer loop stepping the
vertical offset by v_stride and the inner the horizontal offset by
h_stride.  The aborting assertion is modelled as none. -/
def patchesActivateHidden (height width v_stride h_stride : Nat)
    (input : Tensor3) : Option (List Tensor3) :=
  if input.d0 = 1 then
    some ((scanOffsets input.d1 height v_stride).flatMap (fun y =>
      (scanOffsets input.d2 width h_stride).map (fun x =>
        extractPatch input height width y x)))
  else none

/-- Modelled from the spec: the window positions of the patches layer in
row-major scan order, skipping any position where the window would exceed
the image bounds; in each axis these are the multiples of the stride
i * stride with i * stride + window <= extent. -/
def specWindowPositions (h w height width v_stride h_stride : Nat) :
    List (Nat × Nat) :=
  (List.range (if height ≤ h then (h - height) / v_stride + 1 else 0)).flatMap
    (fun iy =>
      (List.range (if width ≤ w then (w - width) / h_stride + 1 else 0)).map
        (fun ix => (iy * v_stride, ix * h_stride)))

/-! Spec-side definitions and concrete fixtures. -/

/-- The data-model invariant of an initialized layer: the weight and bias
shapes agree with the dimension fields, the filter dimensions satisfy the
valid-convolution relation, and the output extents are positive and fit
inside the input. -/
def Initialized (l : Layer) : Prop :=
  l.w.d0 = l.k ∧ l.w.d1 = l.nc ∧ l.w.d2 = l.nw1 ∧ l.w.d3 = l.nw2 ∧
    l.b.d0 = l.k ∧ l.nw1 = l.nv1 - l.nh1 + 1 ∧ l.nw2 = l.nv2 - l.nh2 + 1 ∧
    1 ≤ l.nh1 ∧ l.nh1 ≤ l.nv1 ∧ 1 ≤ l.nh2 ∧ l.nh2 ≤ l.nv2

/-- The forward pipeline as the spec words it: a valid-mode convolution of
the single input against the weights in the flipped-kernel convention,
a broadcast addition of the bias across the output spatial extent, and an
element-wise activation, with result shape (filters, out_h, out_w). -/
def specActivateHidden (f : ℚ → ℚ) (l : Layer) (v : Tensor3) : Tensor3 :=
  ⟨l.k, l.nh1, l.nh2, fun kk y x =>
    f (l.b.data kk +
      sumR l.nc (fun c => sumR l.nw1 (fun i => sumR l.nw2 (fun j =>
        v.data c (y + i) (x + j) * l.w.data kk c i j))))⟩

/-- The batch of size 1 containing a single sample. -/
def mkBatch1 (v : Tensor3) : Tensor4 :=
  ⟨1, v.d0, v.d1, v.d2, fun _ c y x => v.data c y x⟩

/-- The bias gradient as the spec words it: the per-output-unit error
reduced first over spatial position (as a mean) and then over the batch,
one value per filter. -/
def specBiasGrad (e : Tensor4) : Tensor1 :=
  ⟨e.d1, fun kk =>
    sumR e.d0 (fun n =>
      sumR e.d2 (fun y => sumR e.d3 (fun x => e.data n kk y x)) /
        ((e.d2 * e.d3 : Nat) : ℚ))⟩

/-- The one-line summary format as the spec words it, with placeholders
C, H, W (input), K (filters), FH, FW (filter), ACT, OH, OW (output). -/
def specShortString (c h w k : Nat) (fh fw : Nat) (act : String)
    (oh ow : Nat) : String :=
  "Conv(dyn): " ++ toString c ++ "x" ++ toString h ++ "x" ++ toString w ++
    " -> (" ++ toString k ++ "x" ++ toString fh ++ "x" ++ toString fw ++
    ") -> " ++ act ++ " -> " ++ toString k ++ "x" ++ toString oh ++ "x" ++
    toString ow

/-- A default-constructed layer (the constructor initializes nothing). -/
def emptyLayer : Layer :=
  ⟨⟨0, 0, 0, 0, fun _ _ _ _ => 0⟩, ⟨0, fun _ => 0⟩, none, none,
    0, 0, 0, 0, 0, 0, 0, 0⟩

/-- A concrete initialized layer: 1 input channel, 3x3 input, 2 filters,
2x2 output, hence 2x2 filters. -/
def layerA : Layer :=
  init_layer (fun _ _ f c i j => (f + c + i + j : Nat)) (fun _ _ f => (f : Nat))
    emptyLayer 1 3 3 2 2 2

/-- A concrete 1x3x3 input sample. -/
def sampleA : Tensor3 :=
  ⟨1, 3, 3, fun _ y x => ((y * 3 + x : Nat) : ℚ)⟩

/-- A concrete training context with batch size 2 matching layerA. -/
def ctxA : Context :=
  ⟨⟨2, 1, 3, 3, fun n c y x => ((n + c + y + x : Nat) : ℚ)⟩,
    ⟨2, 2, 2, 2, fun n f y x => ((n + f + y + x : Nat) : ℚ)⟩,
    ⟨2, 2, 2, 2, fun n f y x => ((n * 8 + f * 4 + y * 2 + x : Nat) : ℚ)⟩,
    ⟨2, 1, 2, 2, fun _ _ _ _ => 0⟩,
    ⟨2, fun _ => 0⟩⟩

/-- A concrete single-channel 6x6 image. -/
def imgA : Tensor3 :=
  ⟨1, 6, 6, fun _ y x => ((y * 6 + x : Nat) : ℚ)⟩

/-- A concrete image whose channel dimension is 2, not 1. -/
def imgBad : Tensor3 :=
  ⟨2, 6, 6, fun _ _ _ => 0⟩

/-! Helper lemmas about the accumulation operator and row-major index
arithmetic. -/

theorem sumR_congr {n : Nat} {f g : Nat → ℚ} (h : ∀ i, i < n → f i = g i) :
    sumR n f = sumR n g := by
  induction n with
  | zero => rfl
  | succ m ih =>
    simp only [sumR]
    rw [ih (fun i hi => h i (Nat.lt_succ_of_lt hi)), h m (Nat.lt_succ_self m)]

theorem sumR_zero_fun (n : Nat) : sumR n (fun _ => (0 : ℚ)) = 0 := by
  induction n with
  | zero => rfl
  | succ m ih => simp [sumR, ih]

theorem sumR_add (n : Nat) (f g : Nat → ℚ) :
    sumR n (fun i => f i + g i) = sumR n f + sumR n g := by
  induction n with
  | zero => simp [sumR]
  | succ m ih => simp only [sumR]; rw [ih]; ring

theorem sumR_div (n : Nat) (f : Nat → ℚ) (c : ℚ) :
    sumR n (fun i => f i / c) = sumR n f / c := by
  induction n with
  | zero => simp [sumR]
  | succ m ih => simp only [sumR]; rw [ih, add_div]

theorem sumR_comm (m n : Nat) (f : Nat → Nat → ℚ) :
    sumR m (fun a => sumR n (fun b => f a b)) =
      sumR n (fun b => sumR m (fun a => f a b)) := by
  induction m with
  | zero => simp [sumR, sumR_zero_fun]
  | succ p ih =>
    simp only [sumR]
    rw [ih, ← sumR_add]

theorem lin_lt {y x d1 d2 : Nat} (hy : y < d1) (hx : x < d2) :
    y * d2 + x < d1 * d2 :=
  calc y * d2 + x < y * d2 + d2 := by omega
  _ = (y + 1) * d2 := by ring
  _ ≤ d1 * d2 := Nat.mul_le_mul_right d2 hy

theorem split_div {x d : Nat} (a : Nat) (hx : x < d) : (a * d + x) / d = a := by
  have hd : 0 < d := by omega
  rw [Nat.add_comm, Nat.add_mul_div_right x a hd, Nat.div_eq_of_lt hx]
  omega

theorem split_mod {x d : Nat} (a : Nat) (hx : x < d) : (a * d + x) % d = x := by
  rw [Nat.add_comm, Nat.add_mul_mod_self_right, Nat.mod_eq_of_lt hx]

/-- Reshaping a 3d tensor to add a leading batch dimension of 1 leaves the
in-bounds entries in place. -/
theorem reshape3to4_at (v : Tensor3) (b : Nat) {c y x : Nat}
    (hy : y < v.d1) (hx : x < v.d2) :
    (reshape3to4 v 1 b v.d1 v.d2).data 0 c y x = v.data c y x := by
  have hI : ((0 * b + c) * v.d1 + y) * v.d2 + x =
      (c * v.d1 + y) * v.d2 + x := by ring
  show flatten3 v (((0 * b + c) * v.d1 + y) * v.d2 + x) = v.data c y x
  simp only [flatten3, hI]
  have hlt : y * v.d2 + x < v.d1 * v.d2 := lin_lt hy hx
  have henc : (c * v.d1 + y) * v.d2 + x =
      c * (v.d1 * v.d2) + (y * v.d2 + x) := by ring
  have h0 : ((c * v.d1 + y) * v.d2 + x) / (v.d1 * v.d2) = c := by
    rw [henc]; exact split_div c hlt
  have h1 : ((c * v.d1 + y) * v.d2 + x) % (v.d1 * v.d2) / v.d2 = y := by
    rw [henc, split_mod c hlt]; exact split_div y hx
  have h2 : ((c * v.d1 + y) * v.d2 + x) % v.d2 = x :=
    split_mod (c * v.d1 + y) hx
  rw [h0, h1, h2]

/-- Reading an in-bounds entry back through the 3d reshape of a 4d tensor
whose leading dimension is 1. -/
theorem reshape4to3_at (t : Tensor4) (a : Nat) {i j l : Nat}
    (hi : i < t.d1) (hj : j < t.d2) (hl : l < t.d3) :
    (reshape4to3 t a t.d2 t.d3).data i j l = t.data 0 i j l := by
  show flatten4 t ((i * t.d2 + j) * t.d3 + l) = t.data 0 i j l
  simp only [flatten4]
  have hlt2 : j * t.d3 + l < t.d2 * t.d3 := lin_lt hj hl
  have henc : (i * t.d2 + j) * t.d3 + l =
      i * (t.d2 * t.d3) + (j * t.d3 + l) := by ring
  have hltI : (i * t.d2 + j) * t.d3 + l < t.d1 * t.d2 * t.d3 := by
    have h := @lin_lt i (j * t.d3 + l) t.d1 (t.d2 * t.d3) hi hlt2
    calc (i * t.d2 + j) * t.d3 + l = i * (t.d2 * t.d3) + (j * t.d3 + l) := henc
    _ < t.d1 * (t.d2 * t.d3) := h
    _ = t.d1 * t.d2 * t.d3 := by ring
  have h0 : ((i * t.d2 + j) * t.d3 + l) / (t.d1 * t.d2 * t.d3) = 0 :=
    Nat.div_eq_of_lt hltI
  have hm : ((i * t.d2 + j) * t.d3 + l) % (t.d1 * t.d2 * t.d3) =
      (i * t.d2 + j) * t.d3 + l := Nat.mod_eq_of_lt hltI
  have h1 : ((i * t.d2 + j) * t.d3 + l) / (t.d2 * t.d3) = i := by
    rw [henc]; exact split_div i hlt2
  have h2 : ((i * t.d2 + j) * t.d3 + l) % (t.d2 * t.d3) / t.d3 = j := by
    rw [henc, split_mod i hlt2]; exact split_div j hl
  have h3 : ((i * t.d2 + j) * t.d3 + l) % t.d3 = l :=
    split_mod (i * t.d2 + j) hl
  rw [h0, hm, h1, h2, h3]

theorem init_layer_initialized (wI : Nat → Nat → Nat → Nat → Nat → Nat → ℚ)
    (bI : Nat → Nat → Nat → ℚ) (l0 : Layer) (nc nv1 nv2 k nh1 nh2 : Nat)
    (h1 : 1 ≤ nh1) (h2 : nh1 ≤ nv1) (h3 : 1 ≤ nh2) (h4 : nh2 ≤ nv2) :
    Initialized (init_layer wI bI l0 nc nv1 nv2 k nh1 nh2) :=
  ⟨rfl, rfl, rfl, rfl, rfl, rfl, rfl, h1, h2, h3, h4⟩

/-- The single-sample forward value, with the reshape plumbing resolved:
inside the bounds, activate_hidden yields the activation of bias plus the
valid cross-correlation of the sample with one filter. -/
theorem activate_hidden_data_eq (f : ℚ → ℚ) (l : Layer) (hl : Initialized l)
    (v : Tensor3) (hv1 : v.d1 = l.nv1) (hv2 : v.d2 = l.nv2)
    {kk y x : Nat} (hk : kk < l.k) (hy : y < l.nh1) (hx : x < l.nh2) :
    (activate_hidden f l v).data kk y x =
      f (l.b.data kk +
        sumR l.nc (fun c => sumR l.nw1 (fun i => sumR l.nw2 (fun j =>
          v.data c (y + i) (x + j) * l.w.data kk c i j)))) := by
  obtain ⟨hw0, hw1, hw2, hw3, hb0, hnw1, hnw2, hp1, hp2, hp3, hp4⟩ := hl
  simp only [activate_hidden, map3, add3, rep]
  congr 1
  congr 1
  set C := conv4dValidFlipped (reshape3to4 v 1 l.nc l.nv1 l.nv2) l.w with hC
  have hd1 : C.d1 = l.k := hw0
  have hd2 : C.d2 = l.nh1 := by
    show l.nv1 - l.w.d2 + 1 = l.nh1
    rw [hw2, hnw1]; omega
  have hd3 : C.d3 = l.nh2 := by
    show l.nv2 - l.w.d3 + 1 = l.nh2
    rw [hw3, hnw2]; omega
  rw [← hd2, ← hd3]
  rw [reshape4to3_at C l.k (by rw [hd1]; exact hk) (by rw [hd2]; exact hy)
    (by rw [hd3]; exact hx)]
  show sumR l.w.d1 (fun c => sumR l.w.d2 (fun i => sumR l.w.d3 (fun j =>
    (reshape3to4 v 1 l.nc l.nv1 l.nv2).data 0 c (y + i) (x + j) *
      l.w.data kk c i j))) = _
  rw [hw1, hw2, hw3]
  apply sumR_congr
  intro c _
  apply sumR_congr
  intro i hi
  apply sumR_congr
  intro j hj
  have hyi : y + i < v.d1 := by rw [hv1]; omega
  have hxj : x + j < v.d2 := by rw [hv2]; omega
  have hr := @reshape3to4_at v l.nc c (y + i) (x + j) hyi hxj
  rw [← hv1, ← hv2, hr]

/-- Claim C1: after init_layer with valid dimensions the weight tensor has
shape (filters, channels, in_h - out_h + 1, in_w - out_w + 1) and the bias
has length filters, and a re-invocation with different dimensions fully
replaces the prior shapes. -/
theorem init_layer_shapes (wI wI' : Nat → Nat → Nat → Nat → Nat → Nat → ℚ)
    (bI bI' : Nat → Nat → Nat → ℚ) (l0 : Layer)
    (nc nv1 nv2 k nh1 nh2 : Nat) (h1 : nh1 ≤ nv1) (h2 : nh2 ≤ nv2)
    (nc' nv1' nv2' k' nh1' nh2' : Nat) (h1' : nh1' ≤ nv1') (h2' : nh2' ≤ nv2') :
    ((init_layer wI bI l0 nc nv1 nv2 k nh1 nh2).w.d0 = k ∧
      (init_layer wI bI l0 nc nv1 nv2 k nh1 nh2).w.d1 = nc ∧
      (init_layer wI bI l0 nc nv1 nv2 k nh1 nh2).w.d2 = nv1 - nh1 + 1 ∧
      (init_layer wI bI l0 nc nv1 nv2 k nh1 nh2).w.d3 = nv2 - nh2 + 1 ∧
      (init_layer wI bI l0 nc nv1 nv2 k nh1 nh2).b.d0 = k) ∧
    ((init_layer wI' bI' (init_layer wI bI l0 nc nv1 nv2 k nh1 nh2)
        nc' nv1' nv2' k' nh1' nh2').w.d0 = k' ∧
      (init_layer wI' bI' (init_layer wI bI l0 nc nv1 nv2 k nh1 nh2)
        nc' nv1' nv2' k' nh1' nh2').w.d1 = nc' ∧
      (init_layer wI' bI' (init_layer wI bI l0 nc nv1 nv2 k nh1 nh2)
        nc' nv1' nv2' k' nh1' nh2').w.d2 = nv1' - nh1' + 1 ∧
      (init_layer wI' bI' (init_layer wI bI l0 nc nv1 nv2 k nh1 nh2)
        nc' nv1' nv2' k' nh1' nh2').w.d3 = nv2' - nh2' + 1 ∧
      (init_layer wI' bI' (init_layer wI bI l0 nc nv1 nv2 k nh1 nh2)
        nc' nv1' nv2' k' nh1' nh2').b.d0 = k') :=
  ⟨⟨rfl, rfl, rfl, rfl, rfl⟩, ⟨rfl, rfl, rfl, rfl, rfl⟩⟩

/-- Witness for claim C1 at concrete dimensions. -/
theorem init_layer_shapes_witness :
    2 ≤ 3 ∧ 2 ≤ 3 ∧ 1 ≤ 4 ∧ 1 ≤ 5 ∧
    (((init_layer (fun _ _ _ _ _ _ => 0) (fun _ _ _ => 0) emptyLayer
        1 3 3 2 2 2).w.d0 = 2 ∧
      (init_layer (fun _ _ _ _ _ _ => 0) (fun _ _ _ => 0) emptyLayer
        1 3 3 2 2 2).w.d1 = 1 ∧
      (init_layer (fun _ _ _ _ _ _ => 0) (fun _ _ _ => 0) emptyLayer
        1 3 3 2 2 2).w.d2 = 3 - 2 + 1 ∧
      (init_layer (fun _ _ _ _ _ _ => 0) (fun _ _ _ => 0) emptyLayer
        1 3 3 2 2 2).w.d3 = 3 - 2 + 1 ∧
      (init_layer (fun _ _ _ _ _ _ => 0) (fun _ _ _ => 0) emptyLayer
        1 3 3 2 2 2).b.d0 = 2) ∧
    ((init_layer (fun _ _ _ _ _ _ => 1) (fun _ _ _ => 1)
        (init_layer (fun _ _ _ _ _ _ => 0) (fun _ _ _ => 0) emptyLayer
          1 3 3 2 2 2) 3 4 5 7 1 1).w.d0 = 7 ∧
      (init_layer (fun _ _ _ _ _ _ => 1) (fun _ _ _ => 1)
        (init_layer (fun _ _ _ _ _ _ => 0) (fun _ _ _ => 0) emptyLayer
          1 3 3 2 2 2) 3 4 5 7 1 1).w.d1 = 3 ∧
      (init_layer (fun _ _ _ _ _ _ => 1) (fun _ _ _ => 1)
        (init_layer (fun _ _ _ _ _ _ => 0) (fun _ _ _ => 0) emptyLayer
          1 3 3 2 2 2) 3 4 5 7 1 1).w.d2 = 4 - 1 + 1 ∧
      (init_layer (fun _ _ _ _ _ _ => 1) (fun _ _ _ => 1)
        (init_layer (fun _ _ _ _ _ _ => 0) (fun _ _ _ => 0) emptyLayer
          1 3 3 2 2 2) 3 4 5 7 1 1).w.d3 = 5 - 1 + 1 ∧
      (init_layer (fun _ _ _ _ _ _ => 1) (fun _ _ _ => 1)
        (init_layer (fun _ _ _ _ _ _ => 0) (fun _ _ _ => 0) emptyLayer
          1 3 3 2 2 2) 3 4 5 7 1 1).b.d0 = 7)) :=
  ⟨by decide, by decide, by decide, by decide,
    init_layer_shapes (fun _ _ _ _ _ _ => 0) (fun _ _ _ _ _ _ => 1)
      (fun _ _ _ => 0) (fun _ _ _ => 1) emptyLayer 1 3 3 2 2 2
      (by decide) (by decide) 3 4 5 7 1 1 (by decide) (by decide)⟩

/-- Claim C2: activate_hidden computes the valid-mode convolution of the
input (with a batch dimension of 1 added) against the weights in the
flipped-kernel convention, adds the bias broadcast across the output
spatial extent, and applies the activation element-wise; the result has
shape (filters, out_h, out_w). -/
theorem activate_hidden_matches_spec (f : ℚ → ℚ) (l : Layer)
    (hl : Initialized l) (v : Tensor3)
    (hv1 : v.d1 = l.nv1) (hv2 : v.d2 = l.nv2) :
    (activate_hidden f l v).d0 = l.k ∧
    (activate_hidden f l v).d1 = l.nh1 ∧
    (activate_hidden f l v).d2 = l.nh2 ∧
    ∀ kk y x, kk < l.k → y < l.nh1 → x < l.nh2 →
      (activate_hidden f l v).data kk y x =
        (specActivateHidden f l v).data kk y x := by
  refine ⟨hl.2.2.2.2.1, rfl, rfl, fun kk y x hk hy hx => ?_⟩
  rw [activate_hidden_data_eq f l hl v hv1 hv2 hk hy hx]
  rfl

/-- Witness for claim C2 on a concrete layer and sample. -/
theorem activate_hidden_matches_spec_witness :
    Initialized layerA ∧ sampleA.d1 = layerA.nv1 ∧ sampleA.d2 = layerA.nv2 ∧
    ((activate_hidden (fun q => q + 1) layerA sampleA).d0 = layerA.k ∧
      (activate_hidden (fun q => q + 1) layerA sampleA).d1 = layerA.nh1 ∧
      (activate_hidden (fun q => q + 1) layerA sampleA).d2 = layerA.nh2 ∧
      ∀ kk y x, kk < layerA.k → y < layerA.nh1 → x < layerA.nh2 →
        (activate_hidden (fun q => q + 1) layerA sampleA).data kk y x =
          (specActivateHidden (fun q => q + 1) layerA sampleA).data kk y x) :=
  ⟨by unfold Initialized; decide, rfl, rfl,
    activate_hidden_matches_spec (fun q => q + 1) layerA
      (by unfold Initialized; decide) sampleA rfl rfl⟩

/-- Claim C3: on a batch of size 1 containing one sample,
batch_activate_hidden produces element for element the same values as
activate_hidden on the sample itself. -/
theorem batch_activate_matches_single (f : ℚ → ℚ) (l : Layer)
    (hl : Initialized l) (v : Tensor3)
    (hv1 : v.d1 = l.nv1) (hv2 : v.d2 = l.nv2) :
    (batch_activate_hidden f l (mkBatch1 v)).d0 = 1 ∧
    (batch_activate_hidden f l (mkBatch1 v)).d1 = l.k ∧
    (batch_activate_hidden f l (mkBatch1 v)).d2 = l.nh1 ∧
    (batch_activate_hidden f l (mkBatch1 v)).d3 = l.nh2 ∧
    ∀ kk y x, kk < l.k → y < l.nh1 → x < l.nh2 →
      (batch_activate_hidden f l (mkBatch1 v)).data 0 kk y x =
        (activate_hidden f l v).data kk y x := by
  refine ⟨rfl, hl.2.2.2.2.1, rfl, rfl, fun kk y x hk hy hx => ?_⟩
  rw [activate_hidden_data_eq f l hl v hv1 hv2 hk hy hx]
  simp only [batch_activate_hidden, map4, add4, rep_l, rep,
    conv4dValidFlipped, mkBatch1]
  rw [hl.2.1, hl.2.2.1, hl.2.2.2.1]

/-- Witness for claim C3 on a concrete layer and sample. -/
theorem batch_activate_matches_single_witness :
    Initialized layerA ∧ sampleA.d1 = layerA.nv1 ∧ sampleA.d2 = layerA.nv2 ∧
    ((batch_activate_hidden (fun q => 2 * q) layerA (mkBatch1 sampleA)).d0 = 1 ∧
      (batch_activate_hidden (fun q => 2 * q) layerA (mkBatch1 sampleA)).d1 = layerA.k ∧
      (batch_activate_hidden (fun q => 2 * q) layerA (mkBatch1 sampleA)).d2 = layerA.nh1 ∧
      (batch_activate_hidden (fun q => 2 * q) layerA (mkBatch1 sampleA)).d3 = layerA.nh2 ∧
      ∀ kk y x, kk < layerA.k → y < layerA.nh1 → x < layerA.nh2 →
        (batch_activate_hidden (fun q => 2 * q) layerA (mkBatch1 sampleA)).data 0 kk y x =
          (activate_hidden (fun q => 2 * q) layerA sampleA).data kk y x) :=
  ⟨by unfold Initialized; decide, rfl, rfl,
    batch_activate_matches_single (fun q => 2 * q) layerA
      (by unfold Initialized; decide) sampleA rfl rfl⟩

theorem sumR_rot (a b c : Nat) (g : Nat → Nat → Nat → ℚ) :
    sumR b (fun y => sumR c (fun x => sumR a (fun n => g n y x))) =
      sumR a (fun n => sumR b (fun y => sumR c (fun x => g n y x))) := by
  have h1 : sumR a (fun n => sumR b (fun y => sumR c (fun x => g n y x))) =
      sumR b (fun y => sumR a (fun n => sumR c (fun x => g n y x))) :=
    sumR_comm a b _
  rw [h1]
  exact sumR_congr fun y _ => (sumR_comm a c _).symm

/-- Claim C4: compute_gradients sets the bias gradient to the error
reduced as a mean over spatial position first and then summed over the
batch, one value per filter, shaped like the biases. -/
theorem compute_gradients_bias (l : Layer) (hl : Initialized l)
    (ctx : Context) (he : ctx.errors.d1 = l.k) :
    (compute_gradients ctx).b_grad.d0 = l.b.d0 ∧
    ∀ kk, (compute_gradients ctx).b_grad.data kk =
      (specBiasGrad ctx.errors).data kk := by
  constructor
  · show ctx.errors.d1 = l.b.d0
    rw [hl.2.2.2.2.1]
    exact he
  · intro kk
    simp only [compute_gradients, mean_r, sum_l, specBiasGrad]
    rw [sumR_div ctx.errors.d0
      (fun n => sumR ctx.errors.d2 (fun y => sumR ctx.errors.d3
        (fun x => ctx.errors.data n kk y x)))
      (((ctx.errors.d2 * ctx.errors.d3 : Nat) : ℚ))]
    congr 1
    exact sumR_rot ctx.errors.d0 ctx.errors.d2 ctx.errors.d3
      (fun n y x => ctx.errors.data n kk y x)

/-- Witness for claim C4 on a concrete layer and context. -/
theorem compute_gradients_bias_witness :
    Initialized layerA ∧ ctxA.errors.d1 = layerA.k ∧
    ((compute_gradients ctxA).b_grad.d0 = layerA.b.d0 ∧
      ∀ kk, (compute_gradients ctxA).b_grad.data kk =
        (specBiasGrad ctxA.errors).data kk) :=
  ⟨by unfold Initialized; decide, rfl,
    compute_gradients_bias layerA (by unfold Initialized; decide) ctxA rfl⟩

/-- Claim C5: adapt_errors replaces the error tensor in place with the
element-wise product of the activation derivative at the stored output
and the previous errors, and changes nothing else in the context. -/
theorem adapt_errors_chain_rule (fd : ℚ → ℚ) (ctx : Context)
    (h0 : ctx.output.d0 = ctx.errors.d0) (h1 : ctx.output.d1 = ctx.errors.d1)
    (h2 : ctx.output.d2 = ctx.errors.d2) (h3 : ctx.output.d3 = ctx.errors.d3) :
    (adapt_errors fd ctx).errors.d0 = ctx.errors.d0 ∧
    (adapt_errors fd ctx).errors.d1 = ctx.errors.d1 ∧
    (adapt_errors fd ctx).errors.d2 = ctx.errors.d2 ∧
    (adapt_errors fd ctx).errors.d3 = ctx.errors.d3 ∧
    (∀ n c y x, (adapt_errors fd ctx).errors.data n c y x =
      fd (ctx.output.data n c y x) * ctx.errors.data n c y x) ∧
    (adapt_errors fd ctx).input = ctx.input ∧
    (adapt_errors fd ctx).output = ctx.output ∧
    (adapt_errors fd ctx).w_grad = ctx.w_grad ∧
    (adapt_errors fd ctx).b_grad = ctx.b_grad :=
  ⟨h0, h1, h2, h3, fun _ _ _ _ => rfl, rfl, rfl, rfl, rfl⟩

/-- Witness for claim C5 on a concrete context. -/
theorem adapt_errors_chain_rule_witness :
    (ctxA.output.d0 = ctxA.errors.d0 ∧ ctxA.output.d1 = ctxA.errors.d1 ∧
      ctxA.output.d2 = ctxA.errors.d2 ∧ ctxA.output.d3 = ctxA.errors.d3) ∧
    ((adapt_errors (fun q => 1 - q) ctxA).errors.d0 = ctxA.errors.d0 ∧
      (adapt_errors (fun q => 1 - q) ctxA).errors.d1 = ctxA.errors.d1 ∧
      (adapt_errors (fun q => 1 - q) ctxA).errors.d2 = ctxA.errors.d2 ∧
      (adapt_errors (fun q => 1 - q) ctxA).errors.d3 = ctxA.errors.d3 ∧
      (∀ n c y x, (adapt_errors (fun q => 1 - q) ctxA).errors.data n c y x =
        (fun q => 1 - q) (ctxA.output.data n c y x) * ctxA.errors.data n c y x) ∧
      (adapt_errors (fun q => 1 - q) ctxA).input = ctxA.input ∧
      (adapt_errors (fun q => 1 - q) ctxA).output = ctxA.output ∧
      (adapt_errors (fun q => 1 - q) ctxA).w_grad = ctxA.w_grad ∧
      (adapt_errors (fun q => 1 - q) ctxA).b_grad = ctxA.b_grad) :=
  ⟨⟨rfl, rfl, rfl, rfl⟩,
    adapt_errors_chain_rule (fun q => 1 - q) ctxA rfl rfl rfl rfl⟩

/-- Claim C6: for every initialized layer, input_size is
channels * in_h * in_w, output_size is filters * out_h * out_w, and
parameters is filters * filter_h * filter_w, excluding the biases. -/
theorem derived_sizes (wI : Nat → Nat → Nat → Nat → Nat → Nat → ℚ)
    (bI : Nat → Nat → Nat → ℚ) (l0 : Layer) (nc nv1 nv2 k nh1 nh2 : Nat) :
    input_size (init_layer wI bI l0 nc nv1 nv2 k nh1 nh2) = nc * nv1 * nv2 ∧
    output_size (init_layer wI bI l0 nc nv1 nv2 k nh1 nh2) = k * nh1 * nh2 ∧
    parameters (init_layer wI bI l0 nc nv1 nv2 k nh1 nh2) =
      k * (nv1 - nh1 + 1) * (nv2 - nh2 + 1) :=
  ⟨rfl, rfl, rfl⟩

/-- Claim C7: to_short_string renders exactly the one-line format
"Conv(dyn): CxHxW -> (KxFHxFW) -> ACT -> KxOHxOW" with the layer's
dimensions and activation name. -/
theorem short_string_format (actName : String)
    (wI : Nat → Nat → Nat → Nat → Nat → Nat → ℚ) (bI : Nat → Nat → Nat → ℚ)
    (l0 : Layer) (nc nv1 nv2 k nh1 nh2 : Nat) :
    to_short_string actName (init_layer wI bI l0 nc nv1 nv2 k nh1 nh2) =
      specShortString nc nv1 nv2 k (nv1 - nh1 + 1) (nv2 - nh2 + 1) actName
        nh1 nh2 :=
  rfl

/-- Claim C10: activate_hidden, batch_activate_hidden, adapt_errors,
backward_batch and compute_gradients leave the layer state, weights,
biases, backups and dimension fields included, unchanged. -/
theorem usage_calls_frame (f fd : ℚ → ℚ) (l : Layer) (v : Tensor3)
    (vb : Tensor4) (ctx : Context) :
    (activate_hidden_call f l v).1 = l ∧
    (batch_activate_hidden_call f l vb).1 = l ∧
    (adapt_errors_call fd l ctx).1 = l ∧
    (backward_batch_call l ctx).1 = l ∧
    (compute_gradients_call l ctx).1 = l :=
  ⟨rfl, rfl, rfl, rfl, rfl⟩

/-- The scan loop visits exactly the stride multiples that keep the window
inside the bound, provided the fuel covers the iteration count. -/
theorem scanOffsetsAux_eq (stride : Nat) (hstr : 1 ≤ stride) :
    ∀ fuel bound win off,
      (if off + win ≤ bound then (bound - win - off) / stride + 1 else 0) ≤ fuel →
      scanOffsetsAux fuel bound win stride off =
        (List.range
          (if off + win ≤ bound then (bound - win - off) / stride + 1 else 0)).map
          (fun i => off + i * stride) := by
  intro fuel
  induction fuel with
  | zero =>
    intro bound win off hcnt
    by_cases h : off + win ≤ bound
    · rw [if_pos h] at hcnt
      exact absurd hcnt (Nat.not_succ_le_zero _)
    · rw [if_neg h]
      simp [scanOffsetsAux]
  | succ n ih =>
    intro bound win off hcnt
    simp only [scanOffsetsAux]
    by_cases h : off + win ≤ bound
    · rw [if_pos h] at hcnt ⊢
      rw [if_pos h]
      have hstep :
          (if off + stride + win ≤ bound then
            (bound - win - (off + stride)) / stride + 1 else 0) + 1 =
            (bound - win - off) / stride + 1 := by
        by_cases h2 : off + stride + win ≤ bound
        · rw [if_pos h2]
          have hle : stride ≤ bound - win - off := by omega
          have hdiv := Nat.div_eq_sub_div hstr hle
          have hsub : bound - win - off - stride = bound - win - (off + stride) := by
            omega
          rw [hsub] at hdiv
          omega
        · rw [if_neg h2]
          have hlt : bound - win - off < stride := by omega
          rw [Nat.div_eq_of_lt hlt]
      rw [ih bound win (off + stride) (by omega), ← hstep,
        List.range_succ_eq_map, List.map_cons, List.map_map]
      congr 1
      · simp
      · have hf : ((fun i => off + i * stride) ∘ Nat.succ) =
            fun i => off + stride + i * stride := by
          funext i
          simp only [Function.comp, Nat.succ_eq_add_one]
          ring
        rw [hf]
    · rw [if_neg h] at hcnt ⊢
      rw [if_neg h]
      simp

/-- The window-scan loop starting at offset 0, in closed form. -/
theorem scanOffsets_eq (bound win stride : Nat) (hstr : 1 ≤ stride) :
    scanOffsets bound win stride =
      (List.range (if win ≤ bound then (bound - win) / stride + 1 else 0)).map
        (fun i => i * stride) := by
  have hfuel :
      (if 0 + win ≤ bound then (bound - win - 0) / stride + 1 else 0) ≤
        bound + 1 := by
    by_cases h : 0 + win ≤ bound
    · rw [if_pos h]
      have := Nat.div_le_self (bound - win - 0) stride
      omega
    · rw [if_neg h]; omega
  have h := scanOffsetsAux_eq stride hstr (bound + 1) bound win 0 hfuel
  rw [scanOffsets, h]
  simp only [Nat.zero_add, Nat.sub_zero]

/-- Claim C8: on a single-channel image the patches layer emits one
patch per window position in row-major scan order, stepping by the
strides and skipping windows that would exceed the bounds, each patch
the exact sub-block; for a 1x6x6 image, a 3x3 window and stride 2, the
positions are (0,0), (0,2), (2,0), (2,2). -/
theorem patches_row_major (height width vstr hstr : Nat)
    (hv : 1 ≤ vstr) (hh : 1 ≤ hstr) (input : Tensor3) (h1 : input.d0 = 1) :
    patchesActivateHidden height width vstr hstr input =
      some ((specWindowPositions input.d1 input.d2 height width vstr hstr).map
        (fun p => extractPatch input height width p.1 p.2)) ∧
    specWindowPositions 6 6 3 3 2 2 = [(0, 0), (0, 2), (2, 0), (2, 2)] := by
  constructor
  · rw [patchesActivateHidden, if_pos h1]
    congr 1
    rw [scanOffsets_eq input.d1 height vstr hv,
      scanOffsets_eq input.d2 width hstr hh, specWindowPositions,
      List.flatMap_map, List.map_flatMap]
    simp only [List.map_map]
    congr 1
  · decide

/-- Witness for claim C8 on a concrete 1x6x6 image with 3x3 window and
stride 2. -/
theorem patches_row_major_witness :
    1 ≤ 2 ∧ imgA.d0 = 1 ∧
    (patchesActivateHidden 3 3 2 2 imgA =
      some ((specWindowPositions imgA.d1 imgA.d2 3 3 2 2).map
        (fun p => extractPatch imgA 3 3 p.1 p.2)) ∧
      specWindowPositions 6 6 3 3 2 2 = [(0, 0), (0, 2), (2, 0), (2, 2)]) :=
  ⟨by decide, rfl, patches_row_major 3 3 2 2 (by decide) (by decide) imgA rfl⟩

/-- Claim C9: the patches layer asserts single-channel input: any other
channel count trips the assertion (modelled as none), and channel count 1
passes it and the operation completes. -/
theorem patches_single_channel_assert (height width vstr hstr : Nat)
    (input : Tensor3) :
    (input.d0 ≠ 1 → patchesActivateHidden height width vstr hstr input = none) ∧
    (input.d0 = 1 → ∃ out,
      patchesActivateHidden height width vstr hstr input = some out) := by
  constructor
  · intro h
    rw [patchesActivateHidden, if_neg h]
  · intro h
    exact ⟨_, by rw [patchesActivateHidden, if_pos h]⟩

/-- Witness for claim C9 on a two-channel and a single-channel image. -/
theorem patches_single_channel_assert_witness :
    imgBad.d0 ≠ 1 ∧ patchesActivateHidden 3 3 2 2 imgBad = none ∧
    imgA.d0 = 1 ∧ ∃ out, patchesActivateHidden 3 3 2 2 imgA = some out :=
  ⟨by decide, (patches_single_channel_assert 3 3 2 2 imgBad).1 (by decide),
    rfl, (patches_single_channel_assert 3 3 2 2 imgA).2 rfl⟩

end Dll
